import Mathlib

/-!
Verification of the basic-irc-server connection-session lifecycle: the
registration handshake (`do_auth_flow`), the shared registry of active
sessions (a `BTreeMap<User, TcpStream>` behind a mutex, modelled as an
association list), the per-session read loop (`handle_chat`) and the
broadcast fan-out loop (`broadcast_messages`).

Modelling conventions:
* bytes are `Nat`s, byte buffers are `List Nat`; JSON text payloads are
  rendered as their ASCII byte lists;
* `serde_json::from_slice::<User>` is an abstract parameter
  `decodeUser : List Nat → Option User` (an external library function);
  concrete witnesses instantiate it with its behaviour on fixed inputs;
* `String::from_utf8_lossy` is an abstract total parameter
  `lossy : List Nat → String`;
* stream writes are modelled by recording the attempted payload and by a
  boolean saying whether the `write_all` call succeeded;
* the mutex serialises registry accesses, so a critical section is one
  atomic step on the map; lock/write interleavings are modelled as event
  traces (`Ev`).
-/

set_option autoImplicit false

namespace Irc

/-- `User` from `src/user.rs`: a display name; equality is by exact string
value (derived `PartialEq`/`Eq` compare the single `name` field). -/
structure User where
  name : String
deriving DecidableEq, Repr

/-- `impl Display for User` writes just the name. -/
def User.display (u : User) : String := u.name

/-- `pub const VALIDATE_BUFFER_SIZE: usize = 256;` from `src/server.rs`. -/
def VALIDATE_BUFFER_SIZE : Nat := 256

/-- The registry `BTreeMap<User, S>`: modelled as an association list with
unique keys (`σ` is the sink type, `TcpStream` in the source). -/
abbrev Registry (σ : Type) : Type := List (User × σ)

/-- `contains_key` on the registry map. -/
def containsKey {σ : Type} (m : Registry σ) (u : User) : Bool :=
  m.any (fun p => decide (p.1 = u))

/-- `BTreeMap::insert`: replaces the value if the key is present, otherwise
adds the entry. -/
def insertKey {σ : Type} (m : Registry σ) (u : User) (s : σ) : Registry σ :=
  if containsKey m u then m.map (fun p => if p.1 = u then (u, s) else p)
  else m ++ [(u, s)]

/-- `BTreeMap::remove`. -/
def removeKey {σ : Type} (m : Registry σ) (u : User) : Registry σ :=
  m.filter (fun p => decide (¬ p.1 = u))

/-- Number of entries stored under key `u`. -/
def countKey {σ : Type} (m : Registry σ) (u : User) : Nat :=
  (m.filter (fun p => decide (p.1 = u))).length

/-- `ServerError` from `src/server.rs` (payloads other than the conflicting
name are irrelevant to the claims). -/
inductive ServerError where
  | ioErr
  | serde
  | alreadyConnected (name : String)
deriving DecidableEq, Repr

/-- `AuthResponse` from `src/response.rs`. -/
inductive AuthResponse where
  | success
  | error (reason : String)
deriving DecidableEq, Repr

instance {ε α : Type} [DecidableEq ε] [DecidableEq α] : DecidableEq (Except ε α) :=
  fun a b =>
    match a, b with
    | Except.ok x, Except.ok y =>
      if h : x = y then Decidable.isTrue (congrArg Except.ok h)
      else Decidable.isFalse (fun hc => h (Except.ok.inj hc))
    | Except.error x, Except.error y =>
      if h : x = y then Decidable.isTrue (congrArg Except.error h)
      else Decidable.isFalse (fun hc => h (Except.error.inj hc))
    | Except.ok _, Except.error _ => Decidable.isFalse (fun hc => Except.noConfusion hc)
    | Except.error _, Except.ok _ => Decidable.isFalse (fun hc => Except.noConfusion hc)

/-- Result view of one `do_auth_flow` call: the returned `Result`, the
registry contents afterwards, and the `AuthResponse` payloads handed to
`write_all` on the stream (recorded whether or not the write succeeded). -/
structure AuthResult (σ : Type) where
  result : Except ServerError User
  registry : Registry σ
  written : List AuthResponse
deriving DecidableEq, Repr

/-- `do_auth_flow` from `src/server.rs` lines 73-96.
`readRes` is the outcome of `stream.read` into a 256-byte buffer: an
error, or the bytes available on the stream (of which at most
`VALIDATE_BUFFER_SIZE` are read).  `errWriteOk` / `succWriteOk` say
whether the `write_all` of the error / success response succeeds.
Inside one critical section the code checks `contains_key` and either
writes the conflict response and returns `AlreadyConnected`, or inserts
a clone of the stream; the success response is written after the lock is
released. -/
def do_auth_flow {σ : Type} (decodeUser : List Nat → Option User)
    (readRes : Except Unit (List Nat)) (errWriteOk succWriteOk : Bool)
    (m : Registry σ) (sink : σ) : AuthResult σ :=
  match readRes with
  | .error _ => ⟨.error .ioErr, m, []⟩
  | .ok input =>
    match decodeUser (input.take VALIDATE_BUFFER_SIZE) with
    | none => ⟨.error .serde, m, []⟩
    | some user =>
      if containsKey m user then
        let resp := AuthResponse.error ("Name is already taken: " ++ user.name)
        if errWriteOk then ⟨.error (.alreadyConnected user.name), m, [resp]⟩
        else ⟨.error .ioErr, m, [resp]⟩
      else
        let m2 := insertKey m user sink
        if succWriteOk then ⟨.ok user, m2, [.success]⟩
        else ⟨.error .ioErr, m2, [.success]⟩

/-- The map-level core of the registration critical section
(`src/server.rs` lines 83-92): check `contains_key`, fail with the
conflicting name if present, otherwise insert.  This is the spec's
`try_register`. -/
def try_register {σ : Type} (m : Registry σ) (u : User) (s : σ) :
    Except String (Registry σ) :=
  if containsKey m u then .error u.name else .ok (insertKey m u s)

/-- The characters with the Unicode `White_Space` property, the set
stripped by Rust's `char::is_whitespace` / `str::trim_end`:
U+0009..U+000D, space, NEL, NBSP, ogham space mark, U+2000..U+200A,
line separator, paragraph separator, narrow NBSP, medium mathematical
space, ideographic space. -/
def rustWhitespace : List Char :=
  ['\t', '\n', '\x0B', '\x0C', '\r', ' ', '\u0085', '\u00A0', '\u1680',
   '\u2000', '\u2001', '\u2002', '\u2003', '\u2004', '\u2005', '\u2006',
   '\u2007', '\u2008', '\u2009', '\u200A', '\u2028', '\u2029', '\u202F',
   '\u205F', '\u3000']

/-- Rust's `char::is_whitespace`: membership in the Unicode `White_Space`
set (this includes, but is strictly larger than, the four characters
named by the trimming claim). -/
def isWsChar (c : Char) : Bool := rustWhitespace.contains c

/-- Drop trailing whitespace from a character list. -/
def trimEndChars (l : List Char) : List Char :=
  (l.reverse.dropWhile isWsChar).reverse

/-- `str::trim_end` as used by `handle_chat` and by
`ServerFriendlyString::from`. -/
def trim_end (s : String) : String := String.mk (trimEndChars s.data)

/-- `impl<T: Into<String>> From<T> for ServerFriendlyString`
(`src/server_friendly_string.rs` lines 20-26): trim trailing whitespace,
then push exactly one `\n`. -/
def serverFriendlyFrom (s : String) : String := trim_end s ++ "\n"

/-- Split a byte stream into the successive results of
`BufRead::read_until(0xA)`: chunks ending in the delimiter `10`, with a
final delimiter-less chunk if the stream does not end in `10`. -/
def chunksAux : List Nat → List Nat → List (List Nat)
  | [], acc => if acc.isEmpty then [] else [acc.reverse]
  | b :: rest, acc =>
    if b = 10 then (10 :: acc).reverse :: chunksAux rest []
    else chunksAux rest (b :: acc)

/-- All lines delivered by repeated `read_until(0xA)` calls on `bs`. -/
def read_until_chunks (bs : List Nat) : List (List Nat) := chunksAux bs []

/-- `handle_chat` from `src/server.rs` lines 98-129: for each chunk
returned by `read_until`, decode it with `String::from_utf8_lossy`
(the abstract total function `lossy`), `trim_end` it, and send the pair
`(user, text)` down the channel; the loop ends only at a zero-byte read
(end of input) or a read error.  Returns the published chat events in
order. -/
def handle_chat (lossy : List Nat → String) (u : User) (input : List Nat) :
    List (User × String) :=
  (read_until_chunks input).map (fun l => (u, trim_end (lossy l)))

/-- Final state of one session: registry contents after the session ends,
and the chat events it published. -/
structure SessionResult (σ : Type) where
  registry : Registry σ
  published : List (User × String)
deriving DecidableEq, Repr

/-- `handle_connection` from `src/server.rs` lines 55-69: run
`do_auth_flow`; on `Ok(user)` run `handle_chat` and then
`connected_users.lock().remove(&user)`; on `Err` just log. -/
def handle_connection {σ : Type} (decodeUser : List Nat → Option User)
    (lossy : List Nat → String) (readRes : Except Unit (List Nat))
    (errWriteOk succWriteOk : Bool) (chatInput : List Nat)
    (m : Registry σ) (sink : σ) : SessionResult σ :=
  let a := do_auth_flow decodeUser readRes errWriteOk succWriteOk m sink
  match a.result with
  | .ok user => ⟨removeKey a.registry user, handle_chat lossy user chatInput⟩
  | .error _ => ⟨a.registry, []⟩

/-- `format!("<{user}> {msg}")` from `broadcast_messages`
(`src/server.rs` line 136): note no trailing newline is appended. -/
def formatMsg (sender : User) (msg : String) : String :=
  "<" ++ sender.name ++ "> " ++ msg

/-- The write calls issued by one iteration of `broadcast_messages`
(`src/server.rs` lines 135-147) for the event `(sender, msg)`: for each
registry entry whose key differs from the sender, `write_all` of the
formatted bytes, as `(sink, payload)` pairs in iteration order. -/
def broadcast_writes (users : Registry Nat) (sender : User) (msg : String) :
    List (Nat × String) :=
  (users.filter (fun p => decide (¬ p.1 = sender))).map
    (fun p => (p.2, formatMsg sender msg))

/-- Buffer-level view of one fan-out pass: each sink is the string written
to it so far (as in the repository's own `Cursor`-based test).  `fails`
says whether the `write_all` to a given recipient errors; a failure is
only logged, so it neither stops the iteration nor changes the map. -/
def broadcast_deliver (fails : User → Bool) (users : Registry String)
    (sender : User) (msg : String) : Registry String :=
  users.map (fun p =>
    if p.1 ≠ sender ∧ fails p.1 = false then (p.1, p.2 ++ formatMsg sender msg)
    else p)

/-- The full drain loop of `broadcast_messages` over a list of queued
events. -/
def broadcast_messages (fails : User → Bool) (users : Registry String)
    (events : List (User × String)) : Registry String :=
  events.foldl (fun m e => broadcast_deliver fails m e.1 e.2) users

/-- Atomic events for the lock-discipline analysis: mutex acquisition and
release, a map operation under the lock, a network read, a network
write. -/
inductive Ev where
  | acquire
  | release
  | mapOp
  | netRead
  | netWrite
deriving DecidableEq, Repr

/-- Does the trace perform a network write while the lock depth is
positive? -/
def wul : List Ev → Nat → Bool
  | [], _ => false
  | Ev.acquire :: tr, d => wul tr (d + 1)
  | Ev.release :: tr, d => wul tr (d - 1)
  | Ev.netWrite :: tr, d => decide (0 < d) || wul tr d
  | Ev.mapOp :: tr, d => wul tr d
  | Ev.netRead :: tr, d => wul tr d

/-- A network write occurs inside a critical section of the trace. -/
def writeUnderLock (tr : List Ev) : Bool := wul tr 0

/-- Event trace of one `broadcast_messages` iteration:
`users.lock()` acquires the guard for the whole statement, every
recipient `write_all` runs via `iter_mut` on the guard, and the guard
drops afterwards (`src/server.rs` lines 138-146). -/
def broadcast_events (users : Registry Nat) (sender : User) : List Ev :=
  Ev.acquire ::
    ((users.filter (fun p => decide (¬ p.1 = sender))).map (fun _ => Ev.netWrite)
      ++ [Ev.release])

/-- Event trace of `do_auth_flow`: read the handshake; on a decoded user,
enter the critical section; on a conflict the error response is written
while the guard is still live (the `return` drops it after the write);
otherwise insert, leave the block, and write the success response
outside the lock. -/
def do_auth_flow_events {σ : Type} (decodeUser : List Nat → Option User)
    (input : List Nat) (m : Registry σ) : List Ev :=
  Ev.netRead ::
    match decodeUser (input.take VALIDATE_BUFFER_SIZE) with
    | none => []
    | some user =>
      if containsKey m user then [Ev.acquire, Ev.mapOp, Ev.netWrite, Ev.release]
      else [Ev.acquire, Ev.mapOp, Ev.mapOp, Ev.release, Ev.netWrite]

/-- Event trace of `connected_users.lock().remove(&user)` in
`handle_connection`. -/
def remove_events : List Ev := [Ev.acquire, Ev.mapOp, Ev.release]

/-- Registry operations reachable through the server: a registration
attempt (the handshake critical section) or a removal (session end). -/
inductive RegOp (σ : Type) where
  | reg (u : User) (s : σ)
  | rem (u : User)

/-- Effect of one registry operation on the map. -/
def applyOp {σ : Type} (m : Registry σ) : RegOp σ → Registry σ
  | .reg u s =>
    match try_register m u s with
    | .ok m2 => m2
    | .error _ => m
  | .rem u => removeKey m u

/-- Effect of a serialised sequence of registry operations (the mutex
serialises all accesses). -/
def applyOps {σ : Type} (m : Registry σ) (ops : List (RegOp σ)) : Registry σ :=
  ops.foldl applyOp m

/-- A serialised run of registration attempts for the same identity `u`,
one sink per attempt; returns the final map and each attempt's success
flag. -/
def run_attempts {σ : Type} (u : User) (m : Registry σ) :
    List σ → Registry σ × List Bool
  | [] => (m, [])
  | s :: rest =>
    match try_register m u s with
    | .ok m2 =>
      let r := run_attempts u m2 rest
      (r.1, true :: r.2)
    | .error _ =>
      let r := run_attempts u m rest
      (r.1, false :: r.2)

/-- ASCII bytes of a string. -/
def strBytes (s : String) : List Nat := s.data.map Char.toNat

/-- The serde JSON payload `\x7b"name":"alice"\x7d` as bytes. -/
def aliceJson : List Nat := strBytes "\x7b\"name\":\"alice\"\x7d"

/-- `serde_json::from_slice::<User>` restricted to the inputs used in
concrete witnesses: decodes `aliceJson` to the user `alice`, fails on
everything else (in particular on the empty slice and on truncated
payloads, as serde does). -/
def decodeAliceOnly : List Nat → Option User :=
  fun bs => if bs = aliceJson then some ⟨"alice"⟩ else none

/-- The serde JSON payload `\x7b"name":""\x7d` as bytes. -/
def emptyNameJson : List Nat := strBytes "\x7b\"name\":\"\"\x7d"

/-- `serde_json::from_slice::<User>` restricted to the empty-name payload:
serde happily decodes an empty `name` field. -/
def decodeEmptyName : List Nat → Option User :=
  fun bs => if bs = emptyNameJson then some ⟨""⟩ else none

/-- Trivial stand-in for `from_utf8_lossy` on paths where the chat loop is
never reached. -/
def lossyNone : List Nat → String := fun _ => ""

/-- A handshake payload of 300 bytes, exceeding `VALIDATE_BUFFER_SIZE`. -/
def longPayload : List Nat := List.replicate 300 97

/-- The last character of the list, if any, is not trailing whitespace. -/
def noTrailingWs (l : List Char) : Bool :=
  match l.getLast? with
  | none => true
  | some c => !isWsChar c

/-- Three registered users with empty sink buffers, for concrete fan-out
witnesses. -/
def usersW : Registry String := [(⟨"a"⟩, ""), (⟨"b"⟩, ""), (⟨"c"⟩, "")]

/-- A write-failure oracle failing exactly the recipient `b`. -/
def failsB : User → Bool := fun u => decide (u = ⟨"b"⟩)

/-- `String::from_utf8_lossy` restricted to the byte lines of the concrete
chat witness: the line `[0xFF, 'h', '\n']` is not valid UTF-8, so the
`0xFF` byte decodes to U+FFFD; the line `['h', '\n']` is valid UTF-8. -/
def lossyW : List Nat → String := fun bs =>
  if bs = [255, 104, 10] then "\uFFFD" ++ "h" ++ "\n"
  else if bs = [104, 10] then "h" ++ "\n"
  else ""

/-! ### Registry map lemmas -/

theorem containsKey_removeKey {σ : Type} (m : Registry σ) (u : User) :
    containsKey (removeKey m u) u = false := by
  simp only [containsKey, removeKey]
  rw [List.any_eq_false]
  intro p hp
  rcases List.mem_filter.mp hp with ⟨-, h2⟩
  simp only [decide_eq_true_eq] at h2 ⊢
  exact h2

theorem insertKey_of_not_mem {σ : Type} (m : Registry σ) (u : User) (s : σ)
    (h : containsKey m u = false) : insertKey m u s = m ++ [(u, s)] := by
  simp [insertKey, h]

theorem containsKey_append_single {σ : Type} (m : Registry σ) (u : User) (s : σ) :
    containsKey (m ++ [(u, s)]) u = true := by
  simp [containsKey, List.any_append]

theorem countKey_eq_zero {σ : Type} (m : Registry σ) (u : User)
    (h : containsKey m u = false) : countKey m u = 0 := by
  simp only [containsKey] at h
  rw [List.any_eq_false] at h
  simp only [countKey, List.length_eq_zero, List.filter_eq_nil_iff]
  exact h

theorem countKey_append {σ : Type} (m1 m2 : Registry σ) (v : User) :
    countKey (m1 ++ m2) v = countKey m1 v + countKey m2 v := by
  simp [countKey, List.filter_append]

theorem countKey_single {σ : Type} (u v : User) (s : σ) :
    countKey ([(u, s)] : Registry σ) v = if v = u then 1 else 0 := by
  by_cases h : v = u
  · subst h
    simp [countKey]
  · simp [countKey, h, Ne.symm h]

theorem countKey_removeKey_le {σ : Type} (m : Registry σ) (u v : User) :
    countKey (removeKey m u) v ≤ countKey m v := by
  simp only [countKey, removeKey]
  exact ((List.filter_sublist m).filter _).length_le

theorem countKey_map_update_le {σ : Type} (t : Registry σ) (u v : User) (s : σ) :
    countKey (t.map (fun p => if p.1 = u then (u, s) else p)) v ≤ countKey t v := by
  induction t with
  | nil => simp [countKey]
  | cons p t ih =>
    have hkey : ((if p.1 = u then (u, s) else p) : User × σ).1 = p.1 := by
      by_cases hp : p.1 = u <;> simp [hp]
    simp only [countKey, List.map_cons, List.filter_cons] at ih ⊢
    rw [hkey]
    by_cases hv : p.1 = v <;> simp [hv] <;> omega

theorem countKey_insertKey_le {σ : Type} (m : Registry σ) (u v : User) (s : σ)
    (h : ∀ w, countKey m w ≤ 1) : countKey (insertKey m u s) v ≤ 1 := by
  by_cases hc : containsKey m u = true
  · have hm : insertKey m u s = m.map (fun p => if p.1 = u then (u, s) else p) := by
      simp [insertKey, hc]
    rw [hm]
    exact le_trans (countKey_map_update_le m u v s) (h v)
  · rw [insertKey_of_not_mem m u s (by simpa using hc), countKey_append,
      countKey_single]
    by_cases hv : v = u
    · subst hv
      simp [countKey_eq_zero m v (by simpa using hc)]
    · simpa [hv] using h v

theorem applyOp_atMostOne {σ : Type} (m : Registry σ) (op : RegOp σ)
    (h : ∀ v, countKey m v ≤ 1) : ∀ v, countKey (applyOp m op) v ≤ 1 := by
  intro v
  cases op with
  | reg u s =>
    cases hcb : containsKey m u with
    | true => simpa [applyOp, try_register, hcb] using h v
    | false => simpa [applyOp, try_register, hcb] using countKey_insertKey_le m u v s h
  | rem u => exact le_trans (countKey_removeKey_le m u v) (h v)

theorem applyOps_atMostOne {σ : Type} (m : Registry σ) (ops : List (RegOp σ))
    (h : ∀ v, countKey m v ≤ 1) : ∀ v, countKey (applyOps m ops) v ≤ 1 := by
  induction ops generalizing m with
  | nil => exact h
  | cons op rest ih => exact ih (applyOp m op) (applyOp_atMostOne m op h)

theorem run_attempts_present {σ : Type} (u : User) (m : Registry σ)
    (l : List σ) (h : containsKey m u = true) :
    run_attempts u m l = (m, List.replicate l.length false) := by
  induction l with
  | nil => rfl
  | cons s rest ih => simp [run_attempts, try_register, h, ih, List.replicate]

/-! ### C1 -/

/-- C1: the claim says each non-sender registry entry receives exactly
`"<s> t\n"`.  The code builds `format!("<{user}> {msg}")` with no
trailing newline (and its own test asserts the newline-less bytes), so
the claim is false: with `alice` and `carol` registered and `alice`
sending the event text `hi there`, the only write is
`"<alice> hi there"`, which differs from `"<alice> hi there\n"`. -/
theorem C1_counterexample :
    broadcast_writes [(⟨"alice"⟩, 0), (⟨"carol"⟩, 1)] ⟨"alice"⟩ "hi there"
      = [(1, "<alice> hi there")] ∧
    ("<alice> hi there" : String) ≠ "<alice> hi there" ++ "\n" := by
  constructor
  · rfl
  · decide

/-- C1 (amended): for every chat event `(s, t)` drained by the broadcast
loop, every registry entry whose identity differs from `s` is written
exactly the bytes `"<s> t"` (no newline is appended), and no write of
the event targets the entry of `s` itself. -/
theorem C1_fanout (users : Registry Nat) (s : User) (t : String) :
    (∀ p, p ∈ users → p.1 ≠ s →
      (p.2, formatMsg s t) ∈ broadcast_writes users s t) ∧
    (∀ w, w ∈ broadcast_writes users s t →
      w.2 = formatMsg s t ∧ ∃ p, p ∈ users ∧ p.1 ≠ s ∧ p.2 = w.1) := by
  constructor
  · intro p hp hne
    simp only [broadcast_writes, List.mem_map, List.mem_filter,
      decide_eq_true_eq]
    exact ⟨p, ⟨hp, hne⟩, rfl⟩
  · intro w hw
    simp only [broadcast_writes, List.mem_map, List.mem_filter,
      decide_eq_true_eq] at hw
    obtain ⟨p, ⟨hp, hne⟩, rfl⟩ := hw
    exact ⟨rfl, p, hp, hne, rfl⟩

/-- C1 witness: concrete instance of the amended fan-out property. -/
theorem C1_fanout_witness :
    ((1 : Nat), formatMsg ⟨"alice"⟩ "hi there")
      ∈ broadcast_writes [(⟨"alice"⟩, 0), (⟨"carol"⟩, 1)] ⟨"alice"⟩ "hi there" :=
  (C1_fanout [(⟨"alice"⟩, 0), (⟨"carol"⟩, 1)] ⟨"alice"⟩ "hi there").1
    (⟨"carol"⟩, 1) (by decide) (by decide)

/-! ### C3 -/

/-- C3: for every serialised sequence of registration attempts with the
same identity (the mutex serialises the check-and-insert critical
section), exactly one attempt succeeds and the rest fail with
`AlreadyConnected`; the final registry holds exactly one entry for that
identity, at most one entry per identity overall, and every registry
state reachable from empty through register/remove operations holds at
most one entry per identity. -/
theorem C3_unique_registration {σ : Type} (u : User) (m : Registry σ)
    (attempts : List σ) (h1 : containsKey m u = false) (h2 : attempts ≠ [])
    (h3 : ∀ v, countKey m v ≤ 1) :
    (run_attempts u m attempts).2.count true = 1 ∧
    countKey (run_attempts u m attempts).1 u = 1 ∧
    (∀ v, countKey (run_attempts u m attempts).1 v ≤ 1) ∧
    (∀ ops : List (RegOp σ), ∀ v,
      countKey (applyOps ([] : Registry σ) ops) v ≤ 1) := by
  obtain ⟨s, rest, rfl⟩ : ∃ s rest, attempts = s :: rest := by
    cases attempts with
    | nil => exact absurd rfl h2
    | cons s rest => exact ⟨s, rest, rfl⟩
  have hins : try_register m u s = .ok (m ++ [(u, s)]) := by
    simp [try_register, h1, insertKey_of_not_mem m u s h1]
  have hpresent : containsKey (m ++ [(u, s)]) u = true :=
    containsKey_append_single m u s
  have hrun : run_attempts u m (s :: rest)
      = (m ++ [(u, s)], true :: List.replicate rest.length false) := by
    simp [run_attempts, hins, run_attempts_present u _ rest hpresent]
  refine ⟨?_, ?_, ?_, ?_⟩
  · rw [hrun]
    simp [List.count_cons, List.count_replicate]
  · rw [hrun, countKey_append, countKey_single, countKey_eq_zero m u h1]
    simp
  · intro v
    rw [hrun]
    simp only
    rw [countKey_append, countKey_single]
    by_cases hv : v = u
    · subst hv
      rw [countKey_eq_zero m v h1]
      simp
    · simp [hv, h3 v]
  · intro ops v
    exact applyOps_atMostOne ([] : Registry σ) ops (fun w => by simp [countKey]) v

/-- C3 witness: three attempts to register `bob` against the empty
registry: exactly one succeeds and the final registry holds one `bob`
entry. -/
theorem C3_unique_registration_witness :
    (run_attempts ⟨"bob"⟩ ([] : Registry Nat) [0, 1, 2]).2.count true = 1 ∧
    countKey (run_attempts ⟨"bob"⟩ ([] : Registry Nat) [0, 1, 2]).1 ⟨"bob"⟩ = 1 ∧
    (∀ v, countKey (run_attempts ⟨"bob"⟩ ([] : Registry Nat) [0, 1, 2]).1 v ≤ 1) ∧
    (∀ ops : List (RegOp Nat), ∀ v,
      countKey (applyOps ([] : Registry Nat) ops) v ≤ 1) :=
  C3_unique_registration ⟨"bob"⟩ [] [0, 1, 2] (by decide) (by decide)
    (fun v => by simp [countKey])

/-! ### C2 -/

/-- C2: the claim says every successful registration is removed from the
registry when the session terminates for any reason.  False: when the
`write_all` of the `Success` response fails after the insert,
`do_auth_flow` returns an `IO` error, `handle_connection` takes its
error branch (which only logs), and the inserted entry survives.
Concretely: `alice` decodes and registers, the success write fails
(`succWriteOk = false`), and after the session ends the registry still
holds `alice`. -/
theorem C2_counterexample :
    (do_auth_flow decodeAliceOnly (Except.ok aliceJson) true false
        ([] : Registry Nat) 0).result = .error .ioErr ∧
    (handle_connection decodeAliceOnly lossyNone (Except.ok aliceJson) true false []
        ([] : Registry Nat) 0).registry = [(⟨"alice"⟩, 0)] := by
  decide

/-- C2 (amended): for every session whose auth flow returned `Ok` (the
registration and the `Success`-response write both succeeded), the
identity is absent from the registry after the session terminates — the
read loop ends and `remove` runs; sessions whose success write failed
after insertion are excluded, since the code leaks their entry. -/
theorem C2_no_leak {σ : Type} (decodeUser : List Nat → Option User)
    (lossy : List Nat → String) (readRes : Except Unit (List Nat))
    (errWriteOk succWriteOk : Bool) (chatInput : List Nat)
    (m : Registry σ) (sink : σ) (u : User)
    (h : (do_auth_flow decodeUser readRes errWriteOk succWriteOk m sink).result
      = .ok u) :
    containsKey (handle_connection decodeUser lossy readRes errWriteOk succWriteOk
      chatInput m sink).registry u = false := by
  simp only [handle_connection, h]
  exact containsKey_removeKey _ u

/-- C2 witness: a clean `alice` session (auth flow succeeds, chat input
ends) leaves no `alice` entry behind. -/
theorem C2_no_leak_witness :
    containsKey (handle_connection decodeAliceOnly lossyNone (Except.ok aliceJson)
      true true [] ([] : Registry Nat) 0).registry ⟨"alice"⟩ = false :=
  C2_no_leak decodeAliceOnly lossyNone (Except.ok aliceJson) true true [] [] 0
    ⟨"alice"⟩ (by decide)

/-! ### C4 -/

theorem wul_writes (l : List (User × Nat)) :
    wul (l.map (fun _ => Ev.netWrite) ++ [Ev.release]) 1 = !l.isEmpty := by
  cases l with
  | nil => rfl
  | cons p t => simp [wul]

/-- C4: the claim says the registry lock is never held across a network
write in any component.  False for the broadcast fan-out: the whole
`iter_mut` pass, including every recipient `write_all`, runs on the
lock guard.  With `alice` and `carol` registered and `alice` the
sender, the broadcast trace performs a network write inside the
critical section; the handshake's conflict-response write is likewise
issued while the guard is live. -/
theorem C4_counterexample :
    writeUnderLock (broadcast_events [(⟨"alice"⟩, 0), (⟨"carol"⟩, 1)] ⟨"alice"⟩)
      = true ∧
    writeUnderLock (do_auth_flow_events decodeAliceOnly aliceJson
      ([(⟨"alice"⟩, 5)] : Registry Nat)) = true := by
  decide

/-- C4 (amended): the broadcast fan-out holds the registry lock across its
recipient writes (a write under lock occurs exactly when some
non-sender entry exists), and the handshake's conflict-response write
also happens inside the critical section; only the success-response
write and the removal path stay outside (removal touches the map
alone). -/
theorem C4_lock_discipline {σ : Type} (users : Registry Nat) (s : User)
    (decodeUser : List Nat → Option User) (input : List Nat) (m : Registry σ)
    (u : User) :
    writeUnderLock (broadcast_events users s)
      = !(users.filter (fun p => decide (¬ p.1 = s))).isEmpty ∧
    (decodeUser (input.take VALIDATE_BUFFER_SIZE) = some u →
      containsKey m u = true →
      writeUnderLock (do_auth_flow_events decodeUser input m) = true) ∧
    (decodeUser (input.take VALIDATE_BUFFER_SIZE) = some u →
      containsKey m u = false →
      writeUnderLock (do_auth_flow_events decodeUser input m) = false) ∧
    writeUnderLock remove_events = false := by
  refine ⟨?_, ?_, ?_, rfl⟩
  · have h1 : writeUnderLock (broadcast_events users s)
        = wul ((users.filter (fun p => decide (¬ p.1 = s))).map
            (fun _ => Ev.netWrite) ++ [Ev.release]) 1 := rfl
    rw [h1, wul_writes]
  · intro hdec hmem
    simp [do_auth_flow_events, hdec, hmem, writeUnderLock, wul]
  · intro hdec hmem
    simp [do_auth_flow_events, hdec, hmem, writeUnderLock, wul]

/-- C4 witness: the amended lock-discipline facts at concrete inputs — a
write under lock on the conflict path, none on the success path. -/
theorem C4_lock_discipline_witness :
    writeUnderLock (do_auth_flow_events decodeAliceOnly aliceJson
      ([(⟨"alice"⟩, 5)] : Registry Nat)) = true ∧
    writeUnderLock (do_auth_flow_events decodeAliceOnly aliceJson
      ([] : Registry Nat)) = false :=
  ⟨(C4_lock_discipline [] ⟨"x"⟩ decodeAliceOnly aliceJson
      ([(⟨"alice"⟩, 5)] : Registry Nat) ⟨"alice"⟩).2.1 (by decide) (by decide),
   (C4_lock_discipline [] ⟨"x"⟩ decodeAliceOnly aliceJson
      ([] : Registry Nat) ⟨"alice"⟩).2.2.1 (by decide) (by decide)⟩

/-! ### C5 -/

/-- C5: when the decoded identity is already registered, the handshake
fails with `AlreadyConnected`, the registry is left exactly as it was,
and the response handed to the peer's stream is the `Error` auth
outcome with reason `"Name is already taken: <name>"`. -/
theorem C5_conflict {σ : Type} (decodeUser : List Nat → Option User)
    (input : List Nat) (succWriteOk : Bool) (m : Registry σ) (sink : σ) (u : User)
    (hdec : decodeUser (input.take VALIDATE_BUFFER_SIZE) = some u)
    (hmem : containsKey m u = true) :
    (do_auth_flow decodeUser (.ok input) true succWriteOk m sink).result
      = .error (.alreadyConnected u.name) ∧
    (do_auth_flow decodeUser (.ok input) true succWriteOk m sink).registry = m ∧
    (do_auth_flow decodeUser (.ok input) true succWriteOk m sink).written
      = [AuthResponse.error ("Name is already taken: " ++ u.name)] := by
  simp [do_auth_flow, hdec, hmem]

/-- C5 witness: a second `alice` handshake against a registry already
holding `alice`. -/
theorem C5_conflict_witness :
    (do_auth_flow decodeAliceOnly (Except.ok aliceJson) true true
        ([(⟨"alice"⟩, 0)] : Registry Nat) 1).result
      = .error (.alreadyConnected "alice") ∧
    (do_auth_flow decodeAliceOnly (Except.ok aliceJson) true true
        ([(⟨"alice"⟩, 0)] : Registry Nat) 1).registry = [(⟨"alice"⟩, 0)] ∧
    (do_auth_flow decodeAliceOnly (Except.ok aliceJson) true true
        ([(⟨"alice"⟩, 0)] : Registry Nat) 1).written
      = [AuthResponse.error ("Name is already taken: " ++ "alice")] :=
  C5_conflict decodeAliceOnly aliceJson true [(⟨"alice"⟩, 0)] 1 ⟨"alice"⟩
    (by decide) (by decide)

/-! ### C6 -/

/-- C6: whenever decoding the (budget-capped) handshake read fails —
which covers a zero-byte read, malformed bytes, and a payload truncated
at `VALIDATE_BUFFER_SIZE` bytes, since serde rejects the empty and the
truncated slice — the handshake fails with the decode (`Serde`) error,
nothing is written, and the registry is never mutated by that
session. -/
theorem C6_decode_failure {σ : Type} (decodeUser : List Nat → Option User)
    (lossy : List Nat → String) (input : List Nat) (errWriteOk succWriteOk : Bool)
    (chatInput : List Nat) (m : Registry σ) (sink : σ)
    (hdec : decodeUser (input.take VALIDATE_BUFFER_SIZE) = none) :
    (do_auth_flow decodeUser (.ok input) errWriteOk succWriteOk m sink).result
      = .error .serde ∧
    (do_auth_flow decodeUser (.ok input) errWriteOk succWriteOk m sink).registry
      = m ∧
    (do_auth_flow decodeUser (.ok input) errWriteOk succWriteOk m sink).written
      = [] ∧
    (handle_connection decodeUser lossy (.ok input) errWriteOk succWriteOk
        chatInput m sink).registry = m := by
  simp [do_auth_flow, handle_connection, hdec]

/-- C6 witness: a zero-byte handshake read and a 300-byte payload
truncated at the 256-byte budget both leave the registry empty. -/
theorem C6_decode_failure_witness :
    (handle_connection decodeAliceOnly lossyNone (Except.ok []) true true []
        ([] : Registry Nat) 0).registry = [] ∧
    (do_auth_flow decodeAliceOnly (Except.ok longPayload) true true
        ([] : Registry Nat) 0).registry = [] :=
  ⟨(C6_decode_failure decodeAliceOnly lossyNone [] true true [] [] 0
      (by decide)).2.2.2,
   (C6_decode_failure decodeAliceOnly lossyNone longPayload true true [] [] 0
      (by decide)).2.1⟩

/-! ### C7 -/

/-- C7: the claim says every registry key has a non-empty name because the
handshake fails rather than registering an empty name.  False: neither
`User::new` nor `do_auth_flow` checks the name; serde decodes the
payload with an empty `name` field and the handshake registers it, so
the registry holds a key whose name has length zero. -/
theorem C7_counterexample :
    (do_auth_flow decodeEmptyName (Except.ok emptyNameJson) true true
        ([] : Registry Nat) 0).result = .ok ⟨""⟩ ∧
    containsKey (do_auth_flow decodeEmptyName (Except.ok emptyNameJson) true true
        ([] : Registry Nat) 0).registry ⟨""⟩ = true ∧
    (User.mk "").name = "" := by
  decide

/-- C7 (amended): the handshake fails on a zero-length payload only
because decoding fails; it performs no emptiness check on the decoded
name, so any decoded identity not already present — including one with
an empty name — is registered. -/
theorem C7_no_empty_check {σ : Type} (decodeUser : List Nat → Option User)
    (input : List Nat) (m : Registry σ) (sink : σ) (u : User)
    (hdec : decodeUser (input.take VALIDATE_BUFFER_SIZE) = some u)
    (habs : containsKey m u = false) :
    (do_auth_flow decodeUser (.ok input) true true m sink).result = .ok u ∧
    containsKey (do_auth_flow decodeUser (.ok input) true true m sink).registry u
      = true ∧
    (decodeUser [] = none →
      (do_auth_flow decodeUser (.ok []) true true m sink).result
        = .error .serde) := by
  refine ⟨?_, ?_, ?_⟩
  · simp [do_auth_flow, hdec, habs]
  · simp [do_auth_flow, hdec, habs, insertKey_of_not_mem m u sink habs,
      containsKey_append_single]
  · intro hempty
    simp [do_auth_flow, hempty]

/-- C7 witness: the empty-name payload registers the empty-name user. -/
theorem C7_no_empty_check_witness :
    containsKey (do_auth_flow decodeEmptyName (Except.ok emptyNameJson) true true
        ([] : Registry Nat) 0).registry ⟨""⟩ = true :=
  (C7_no_empty_check decodeEmptyName emptyNameJson [] 0 ⟨""⟩
    (by decide) (by decide)).2.1

/-! ### C8 -/

theorem dropWhile_append_of_all {α : Type} (p : α → Bool) (a b : List α)
    (h : ∀ x ∈ a, p x = true) : (a ++ b).dropWhile p = b.dropWhile p := by
  induction a with
  | nil => rfl
  | cons x t ih =>
    have hx := h x (List.mem_cons_self x t)
    simp only [List.cons_append, List.dropWhile_cons, hx, if_pos]
    exact ih (fun y hy => h y (List.mem_cons_of_mem x hy))

theorem dropWhile_of_head_false {α : Type} (p : α → Bool) (l : List α)
    (h : ∀ c, l.head? = some c → p c = false) : l.dropWhile p = l := by
  cases l with
  | nil => rfl
  | cons x t => simp [List.dropWhile_cons, h x rfl]

theorem trimEndChars_append (td wd : List Char)
    (hw : ∀ c ∈ wd, isWsChar c = true)
    (ht : noTrailingWs td = true) : trimEndChars (td ++ wd) = td := by
  unfold trimEndChars
  rw [List.reverse_append]
  rw [dropWhile_append_of_all _ _ _ (fun x hx => hw x (List.mem_reverse.mp hx))]
  rw [dropWhile_of_head_false]
  · exact List.reverse_reverse td
  · intro c hc
    rw [List.head?_reverse] at hc
    unfold noTrailingWs at ht
    rw [hc] at ht
    simpa using ht

/-- C8: the claim says that for every input whose tail is a combination
of carriage returns, tabs, newlines and spaces, the delivered text
equals the input with exactly those trailing characters removed.
False: `str::trim_end` strips the whole Unicode `White_Space` set, not
just those four characters.  The input `"hi\u{00A0}"` (ending in a
no-break space) followed by the tail `" "` (a space, squarely in the
claim's set) should, per the claim, be delivered as `"hi\u{00A0}"`;
the program also strips the no-break space and delivers `"hi"`. -/
theorem C8_counterexample :
    trim_end ("hi\u00A0" ++ " ") = "hi" ∧ ("hi" : String) ≠ "hi\u00A0" := by
  decide

/-- C8 (amended): the trimming law over the program's whitespace set.
For any input whose tail `w` is a combination of Unicode-whitespace
characters (which includes every combination of carriage returns,
tabs, newlines and spaces) appended to a text `t` with no trailing
Unicode-whitespace character, the delivered/displayed text
(`trim_end`, used both by the server's read loop and by
`ServerFriendlyString`) is exactly `t`, and the wire form produced for
sending is `t ++ "\n"`: it ends in a newline and `t` itself does not,
so exactly one `0x0A` is appended after trimming. -/
theorem C8_trimming (t w : String) (hw : ∀ c ∈ w.data, isWsChar c = true)
    (ht : noTrailingWs t.data = true) :
    trim_end (t ++ w) = t ∧
    serverFriendlyFrom (t ++ w) = t ++ "\n" ∧
    (t ++ "\n").data.getLast? = some '\n' ∧
    (∀ c, t.data.getLast? = some c → ¬ c = '\n') := by
  have h1 : trim_end (t ++ w) = t := by
    unfold trim_end
    rw [String.data_append, trimEndChars_append t.data w.data hw ht]
  refine ⟨h1, ?_, ?_, ?_⟩
  · unfold serverFriendlyFrom
    rw [h1]
  · rw [String.data_append]
    exact List.getLast?_concat t.data
  · intro c hc hcn
    unfold noTrailingWs at ht
    rw [hc] at ht
    subst hcn
    exact absurd ht (by decide)

/-- C8 witness: `"hi there"` followed by the whitespace tail
`" \t\r\n\n"` trims back to `"hi there"` and goes on the wire as
`"hi there\n"`. -/
theorem C8_trimming_witness :
    trim_end ("hi there" ++ " \t\r\n\n") = "hi there" ∧
    serverFriendlyFrom ("hi there" ++ " \t\r\n\n") = "hi there" ++ "\n" :=
  ⟨(C8_trimming "hi there" " \t\r\n\n" (by decide) (by decide)).1,
   (C8_trimming "hi there" " \t\r\n\n" (by decide) (by decide)).2.1⟩

/-! ### C9 -/

/-- C9: during one fan-out pass, write failures are isolated.  The keys of
the registry are unchanged by the pass regardless of which writes fail
(in particular the failing recipient is not removed); every non-sender
recipient whose own write succeeds receives the formatted bytes
appended to its sink, no matter which other recipients' writes fail;
and a failing (or sender) entry is left exactly as it was. -/
theorem C9_fault_isolation (fails : User → Bool) (users : Registry String)
    (s : User) (t : String) :
    (broadcast_deliver fails users s t).map Prod.fst = users.map Prod.fst ∧
    (∀ (i : Nat) (p : User × String), users[i]? = some p → p.1 ≠ s →
      fails p.1 = false →
      (broadcast_deliver fails users s t)[i]? = some (p.1, p.2 ++ formatMsg s t)) ∧
    (∀ (i : Nat) (p : User × String), users[i]? = some p →
      (p.1 = s ∨ fails p.1 = true) →
      (broadcast_deliver fails users s t)[i]? = some p) := by
  refine ⟨?_, ?_, ?_⟩
  · unfold broadcast_deliver
    rw [List.map_map]
    apply List.map_congr_left
    intro p hp
    by_cases hc : p.1 ≠ s ∧ fails p.1 = false <;> simp [hc]
  · intro i p hip hne hok
    unfold broadcast_deliver
    rw [List.getElem?_map, hip]
    simp [hne, hok]
  · intro i p hip hcase
    unfold broadcast_deliver
    rw [List.getElem?_map, hip]
    rcases hcase with hs | hf
    · simp [hs]
    · simp [hf]

/-- C9 witness: sender `a`, failing recipient `b`: recipient `c`, later in
the iteration than the failure, still receives the bytes, and `b` keeps
its entry unchanged. -/
theorem C9_fault_isolation_witness :
    (broadcast_deliver failsB usersW ⟨"a"⟩ "m")[2]?
      = some ((⟨"c"⟩ : User), "" ++ formatMsg ⟨"a"⟩ "m") ∧
    (broadcast_deliver failsB usersW ⟨"a"⟩ "m")[1]?
      = some ((⟨"b"⟩ : User), "") :=
  ⟨(C9_fault_isolation failsB usersW ⟨"a"⟩ "m").2.1 2 (⟨"c"⟩, "")
      (by decide) (by decide) (by decide),
   (C9_fault_isolation failsB usersW ⟨"a"⟩ "m").2.2 1 (⟨"b"⟩, "")
      (by decide) (Or.inr (by decide))⟩

/-! ### C10 -/

theorem chunksAux_no_delim (l : List Nat) (rest acc : List Nat)
    (hl : ∀ b ∈ l, b ≠ 10) :
    chunksAux (l ++ 10 :: rest) acc
      = (10 :: (l.reverse ++ acc)).reverse :: chunksAux rest [] := by
  induction l generalizing acc with
  | nil => simp [chunksAux]
  | cons b tl ih =>
    have hb : b ≠ 10 := hl b (List.mem_cons_self b tl)
    simp only [List.cons_append, chunksAux, if_neg hb, List.append_eq]
    rw [ih (b :: acc) ]
    · congr 2
      simp
    · exact fun x hx => hl x (List.mem_cons_of_mem b hx)

theorem read_until_chunks_cons (l rest : List Nat) (hl : ∀ b ∈ l, b ≠ 10) :
    read_until_chunks (l ++ 10 :: rest) = (l ++ [10]) :: read_until_chunks rest := by
  unfold read_until_chunks
  rw [chunksAux_no_delim l rest [] hl]
  congr 2
  simp

/-- C10: a chat line whose bytes are not valid UTF-8 does not terminate
the read loop.  For any byte line `l` (valid UTF-8 or not) followed by
the `0xA` delimiter, the loop publishes the event
`(u, trim_end (lossy (l ++ [10])))` — the line decoded by the total
function `String::from_utf8_lossy` (which replaces invalid sequences
with U+FFFD) and then trimmed — and continues processing the rest of
the stream exactly as for a valid line. -/
theorem C10_lossy_lines (lossy : List Nat → String) (u : User) (l rest : List Nat)
    (hl : ∀ b ∈ l, b ≠ 10) :
    handle_chat lossy u (l ++ 10 :: rest)
      = (u, trim_end (lossy (l ++ [10]))) :: handle_chat lossy u rest := by
  unfold handle_chat
  rw [read_until_chunks_cons l rest hl]
  rfl

/-- C10 witness: the line `[0xFF, 'h', '\n']` (invalid UTF-8 because of
`0xFF`) is published lossily-decoded and trimmed, and the following
valid line is still processed. -/
theorem C10_lossy_lines_witness :
    handle_chat lossyW ⟨"bob"⟩ ([255, 104] ++ 10 :: [104, 10])
      = (⟨"bob"⟩, trim_end (lossyW ([255, 104] ++ [10])))
        :: handle_chat lossyW ⟨"bob"⟩ [104, 10] :=
  C10_lossy_lines lossyW ⟨"bob"⟩ [255, 104] [104, 10] (by decide)

end Irc
